import Mathlib

/-!
Verification development for the `msg` module (`src/msg.py`): a terminal
message-printing helper (class `Msg`) with prefix composition, colour/style
resolution via `colorama`, and wrap-aware line rendering via `textwrap`.

The Python class is shallowly embedded: the dynamically-typed attribute
values that the class actually stores are modelled by `PyVal`; exceptions
are modelled with `Except`, where an error result carries the state of the
object at the moment the exception is raised (Python leaves `self` in
whatever state the partially-executed method produced).

External collaborators are modelled as data: terminal-size detection and
tty-detection are injected constructor inputs, the `colorama` tables are
finite association lists of the documented names, and the `textwrap`
wrapping step (whose code is not part of this repository) is modelled from
the specification as an indent-aware greedy word wrap.
-/

/-- The Python exception classes that the embedded code can raise.
`valueError` plays the role the spec calls `InvalidArgument`. -/
inductive PyErr where
  | valueError
  | nameError
  | typeError
  | attributeError
deriving DecidableEq, Repr

/-- The Python values the `Msg` class stores in its attributes: ints,
strings, booleans, lists of strings (the prefix stack), and `None`. -/
inductive PyVal where
  | int (n : Int)
  | str (s : String)
  | bool (b : Bool)
  | strlist (l : List String)
  | none
deriving DecidableEq, Repr

/-- Python truthiness for the modelled values. -/
def pyTruthy : PyVal → Bool
  | PyVal.int n => n ≠ 0
  | PyVal.str s => s ≠ ""
  | PyVal.bool b => b
  | PyVal.strlist l => l ≠ []
  | PyVal.none => false

/-- Python `str()` of a modelled value (list rendering approximated; it is
only used for colour-code framing text, which the claims never inspect). -/
def pyStr : PyVal → String
  | PyVal.int n => toString n
  | PyVal.str s => s
  | PyVal.bool b => if b then "True" else "False"
  | PyVal.strlist l => String.join l
  | PyVal.none => "None"

/-- Read a value as an `int`; Python `bool` is a subclass of `int`. -/
def asInt : PyVal → Except PyErr Int
  | PyVal.int n => Except.ok n
  | PyVal.bool b => Except.ok (if b then 1 else 0)
  | _ => Except.error PyErr.typeError

/-- Read a value as a `str`. -/
def asStr : PyVal → Except PyErr String
  | PyVal.str s => Except.ok s
  | _ => Except.error PyErr.typeError

/-- Read a value as an iterable of strings, as `str.join` consumes it: a
list of strings yields its elements, a string yields its characters. -/
def asStrList : PyVal → Except PyErr (List String)
  | PyVal.strlist l => Except.ok l
  | PyVal.str t => Except.ok (t.data.map (fun c => String.mk [c]))
  | _ => Except.error PyErr.typeError

/-- The whitespace characters of Python's `str.strip` / `str.split`. -/
def isPySpace (c : Char) : Bool :=
  c = ' ' || c = '\t' || c = '\n' || c = '\r' || c = Char.ofNat 11 || c = Char.ofNat 12

/-- Python `str.strip()`: drop leading and trailing whitespace. -/
def pyStrip (s : String) : String :=
  String.mk (((s.data.dropWhile isPySpace).reverse.dropWhile isPySpace).reverse)

/-- Python `s.endswith(suffix)` (computed on the character lists). -/
def pyEndsWith (s suffix : String) : Bool :=
  suffix.data.isSuffixOf s.data

/-- Python `s.upper()` (ASCII uppercasing, computed on the character
list). -/
def pyUpper (s : String) : String :=
  String.mk (s.data.map Char.toUpper)

/-- Python `sep.join(parts)`. -/
def pyJoin (sep : String) : List String → String
  | [] => ""
  | [x] => x
  | x :: xs => x ++ sep ++ pyJoin sep xs

/-- Python string repetition `s * n` (empty for `n ≤ 0`). -/
def pyRepeat (s : String) (n : Int) : String :=
  String.join (List.replicate n.toNat s)

/-- The `colorama.Fore` table: attribute name to ANSI token (`src/msg.py`
resolves colour names with `getattr(colorama.Fore, name.upper())`). -/
def foreTable : List (String × String) :=
  [("BLACK", "\x1b[30m"), ("RED", "\x1b[31m"), ("GREEN", "\x1b[32m"),
   ("YELLOW", "\x1b[33m"), ("BLUE", "\x1b[34m"), ("MAGENTA", "\x1b[35m"),
   ("CYAN", "\x1b[36m"), ("WHITE", "\x1b[37m"), ("RESET", "\x1b[39m"),
   ("LIGHTBLACK_EX", "\x1b[90m"), ("LIGHTRED_EX", "\x1b[91m"),
   ("LIGHTGREEN_EX", "\x1b[92m"), ("LIGHTYELLOW_EX", "\x1b[93m"),
   ("LIGHTBLUE_EX", "\x1b[94m"), ("LIGHTMAGENTA_EX", "\x1b[95m"),
   ("LIGHTCYAN_EX", "\x1b[96m"), ("LIGHTWHITE_EX", "\x1b[97m")]

/-- The `colorama.Back` table. -/
def backTable : List (String × String) :=
  [("BLACK", "\x1b[40m"), ("RED", "\x1b[41m"), ("GREEN", "\x1b[42m"),
   ("YELLOW", "\x1b[43m"), ("BLUE", "\x1b[44m"), ("MAGENTA", "\x1b[45m"),
   ("CYAN", "\x1b[46m"), ("WHITE", "\x1b[47m"), ("RESET", "\x1b[49m"),
   ("LIGHTBLACK_EX", "\x1b[100m"), ("LIGHTRED_EX", "\x1b[101m"),
   ("LIGHTGREEN_EX", "\x1b[102m"), ("LIGHTYELLOW_EX", "\x1b[103m"),
   ("LIGHTBLUE_EX", "\x1b[104m"), ("LIGHTMAGENTA_EX", "\x1b[105m"),
   ("LIGHTCYAN_EX", "\x1b[106m"), ("LIGHTWHITE_EX", "\x1b[107m")]

/-- The `colorama.Style` table. -/
def styleTable : List (String × String) :=
  [("DIM", "\x1b[2m"), ("NORMAL", "\x1b[22m"), ("BRIGHT", "\x1b[1m"),
   ("RESET_ALL", "\x1b[0m")]

/-- `colorama.Style.RESET_ALL`, printed after coloured output. -/
def styleResetAll : String := "\x1b[0m"

/-- The state of a `Msg` instance: the attributes assigned in
`Msg.__init__`, plus `extra_attrs` holding instance attributes that
`set_colors` may create when a keyword names a class method (Python's
`setattr` then shadows the method on the instance). -/
structure Msg where
  version : PyVal
  columns : PyVal
  rows : PyVal
  use_color : PyVal
  use_textwrap : PyVal
  prefixes : PyVal
  prefix_separator : PyVal
  msg_fore : PyVal
  msg_back : PyVal
  msg_style : PyVal
  info_fore : PyVal
  info_back : PyVal
  info_style : PyVal
  warn_fore : PyVal
  warn_back : PyVal
  warn_style : PyVal
  error_fore : PyVal
  error_back : PyVal
  error_style : PyVal
  extra_attrs : List (String × PyVal)
deriving DecidableEq, Repr

/-- The twelve style fields of the spec (`msg/info/warn/error` crossed with
`_fore/_back/_style`). -/
def styleFields : List String :=
  ["msg_fore", "msg_back", "msg_style", "info_fore", "info_back", "info_style",
   "warn_fore", "warn_back", "warn_style", "error_fore", "error_back", "error_style"]

/-- The attribute names a `Msg` instance answers `hasattr` for: the
instance attributes assigned in `__init__` and the methods defined by the
class.  (Python-implicit dunder attributes are omitted; no caller of
`set_colors` uses such names.) -/
def attrNames : List String :=
  ["version", "columns", "rows", "use_color", "use_textwrap", "prefixes",
   "prefix_separator", "msg_fore", "msg_back", "msg_style", "info_fore",
   "info_back", "info_style", "warn_fore", "warn_back", "warn_style",
   "error_fore", "error_back", "error_style", "is_terminal", "set_columns",
   "set_rows", "enable_color", "enable_textwrap", "set_colors",
   "_get_color_code", "prefix_set", "prefix_add", "prefix_pop", "print_msg",
   "msg", "info", "warn", "error", "line"]

/-- `hasattr(self, key)` for a `Msg` instance. -/
def hasattr (key : String) : Bool := attrNames.contains key

/-- `setattr(self, key, v)`: overwrite the named instance attribute, or
create an instance attribute shadowing a class method. -/
def setattr (s : Msg) (key : String) (v : PyVal) : Msg :=
  if key = "version" then { s with version := v }
  else if key = "columns" then { s with columns := v }
  else if key = "rows" then { s with rows := v }
  else if key = "use_color" then { s with use_color := v }
  else if key = "use_textwrap" then { s with use_textwrap := v }
  else if key = "prefixes" then { s with prefixes := v }
  else if key = "prefix_separator" then { s with prefix_separator := v }
  else if key = "msg_fore" then { s with msg_fore := v }
  else if key = "msg_back" then { s with msg_back := v }
  else if key = "msg_style" then { s with msg_style := v }
  else if key = "info_fore" then { s with info_fore := v }
  else if key = "info_back" then { s with info_back := v }
  else if key = "info_style" then { s with info_style := v }
  else if key = "warn_fore" then { s with warn_fore := v }
  else if key = "warn_back" then { s with warn_back := v }
  else if key = "warn_style" then { s with warn_style := v }
  else if key = "error_fore" then { s with error_fore := v }
  else if key = "error_back" then { s with error_back := v }
  else if key = "error_style" then { s with error_style := v }
  else { s with extra_attrs := (key, v) :: s.extra_attrs }

/-- `Msg._get_color_code` (src/msg.py lines 280-287): uppercase the name
and look it up on the axis table; a failed lookup (Python
`AttributeError`, also raised by `.upper()` on a non-string) returns the
input unchanged. -/
def get_color_code (color_type : List (String × String)) (color : PyVal) : PyVal :=
  match color with
  | PyVal.str c =>
    match List.lookup (pyUpper c) color_type with
    | some tok => PyVal.str tok
    | Option.none => PyVal.str c
  | v => v

/-- The axis table `set_colors` resolves a keyword against, chosen by the
suffix of the keyword name (src/msg.py lines 273-276). -/
def axisTable (key : String) : List (String × String) :=
  if pyEndsWith key "_fore" then foreTable
  else if pyEndsWith key "_back" then backTable
  else styleTable

/-- One iteration of the `set_colors` loop body for a valid key. -/
def applyKw (s : Msg) (kv : String × PyVal) : Msg :=
  setattr s kv.1 (get_color_code (axisTable kv.1) kv.2)

/-- `Msg.set_colors` (src/msg.py lines 216-278): iterate the keyword
arguments in call order; a key passing `hasattr` is resolved and assigned,
the first key failing `hasattr` raises `ValueError` with the earlier
assignments already performed (the error carries the state at raise
time). -/
def set_colors : Msg → List (String × PyVal) → Except (PyErr × Msg) Msg
  | s, [] => Except.ok s
  | s, kv :: rest =>
    if hasattr kv.1 then set_colors (applyKw s kv) rest
    else Except.error (PyErr.valueError, s)

/-- `Msg.set_columns` (src/msg.py lines 139-154): require a positive
`int` (Python `bool` is an `int`), store and return it. -/
def set_columns (s : Msg) (newcolumns : PyVal) : Except (PyErr × Msg) (Msg × PyVal) :=
  match newcolumns with
  | PyVal.int n =>
    if n ≤ 0 then Except.error (PyErr.valueError, s)
    else Except.ok ({ s with columns := PyVal.int n }, PyVal.int n)
  | PyVal.bool b =>
    if b then Except.ok ({ s with columns := PyVal.bool b }, PyVal.bool b)
    else Except.error (PyErr.valueError, s)
  | _ => Except.error (PyErr.valueError, s)

/-- `Msg.set_rows` (src/msg.py lines 156-171). -/
def set_rows (s : Msg) (newrows : PyVal) : Except (PyErr × Msg) (Msg × PyVal) :=
  match newrows with
  | PyVal.int n =>
    if n ≤ 0 then Except.error (PyErr.valueError, s)
    else Except.ok ({ s with rows := PyVal.int n }, PyVal.int n)
  | PyVal.bool b =>
    if b then Except.ok ({ s with rows := PyVal.bool b }, PyVal.bool b)
    else Except.error (PyErr.valueError, s)
  | _ => Except.error (PyErr.valueError, s)

/-- `Msg.enable_color` (src/msg.py lines 173-197).  When called with
`None` the source evaluates the bare name `is_terminal`, which is unbound
at module level (the method is only reachable as `self.is_terminal`), so a
`NameError` is raised while evaluating the right-hand side, before any
assignment to `self.use_color`.  Otherwise the argument is stored as-is
and returned (the colorama init/deinit console side effects are not part
of the state). -/
def enable_color (s : Msg) (color_enable : PyVal) : Except (PyErr × Msg) (Msg × PyVal) :=
  if color_enable = PyVal.none then Except.error (PyErr.nameError, s)
  else
    let s' := { s with use_color := color_enable }
    Except.ok (s', color_enable)

/-- `Msg.enable_textwrap` (src/msg.py lines 199-214): `None` just reports
the current flag, otherwise the argument is stored. -/
def enable_textwrap (s : Msg) (textwrap_enable : PyVal) : Except (PyErr × Msg) (Msg × PyVal) :=
  if textwrap_enable = PyVal.none then Except.ok (s, s.use_textwrap)
  else Except.ok ({ s with use_textwrap := textwrap_enable }, textwrap_enable)

/-- `Msg.prefix_set` (src/msg.py lines 289-306): replace the stack with
the single stripped segment, rejecting non-strings. -/
def prefix_set (s : Msg) (newpref : PyVal) : Except (PyErr × Msg) (Msg × PyVal) :=
  match newpref with
  | PyVal.str p =>
    let s' := { s with prefixes := PyVal.strlist [pyStrip p] }
    Except.ok (s', s'.prefixes)
  | _ => Except.error (PyErr.valueError, s)

/-- `Msg.prefix_add` (src/msg.py lines 308-325): append a stripped
segment (`.append` on a clobbered non-list `prefixes` raises). -/
def prefix_add (s : Msg) (addpref : PyVal) : Except (PyErr × Msg) (Msg × PyVal) :=
  match addpref with
  | PyVal.str p =>
    match s.prefixes with
    | PyVal.strlist l =>
      let s' := { s with prefixes := PyVal.strlist (l ++ [pyStrip p]) }
      Except.ok (s', s'.prefixes)
    | _ => Except.error (PyErr.attributeError, s)
  | _ => Except.error (PyErr.valueError, s)

/-- `Msg.prefix_pop` (src/msg.py lines 327-343): drop the last segment if
any; a no-op on the empty stack. -/
def prefix_pop (s : Msg) : Except (PyErr × Msg) (Msg × PyVal) :=
  match s.prefixes with
  | PyVal.strlist l =>
    let s' := { s with prefixes := PyVal.strlist l.dropLast }
    Except.ok (s', s'.prefixes)
  | _ => Except.error (PyErr.typeError, s)

/-- A writable stream as `Msg.is_terminal` probes it. -/
structure PyStream where
  has_isatty : Bool
  isatty : Bool
deriving DecidableEq, Repr

/-- `Msg.is_terminal` (src/msg.py lines 127-137). -/
def is_terminal (stream : PyStream) : Bool :=
  stream.has_isatty && stream.isatty

/-- `Msg.__init__` (src/msg.py lines 81-125).  `detected_columns`,
`detected_rows` and `stdout` inject the external terminal collaborators
(`shutil.get_terminal_size` and `sys.stdout`).  A falsy `columns`/`rows`
argument (`None` or `0`) selects the detected size; note that no
positivity validation is performed here. -/
def Msg.init (detected_columns detected_rows : Int) (stdout : PyStream)
    (columns rows : Option Int) (use_color : Option Bool) (use_textwrap : Bool)
    (prefixes : List String) (prefix_separator : String)
    (msg_fore msg_back msg_style info_fore info_back info_style
     warn_fore warn_back warn_style error_fore error_back error_style : String) : Msg :=
  { version := PyVal.str "0.8.2"
    columns := PyVal.int (match columns with
      | Option.none => detected_columns
      | some n => if n = 0 then detected_columns else n)
    rows := PyVal.int (match rows with
      | Option.none => detected_rows
      | some n => if n = 0 then detected_rows else n)
    use_color := PyVal.bool (match use_color with
      | Option.none => is_terminal stdout
      | some b => b)
    use_textwrap := PyVal.bool use_textwrap
    prefixes := PyVal.strlist prefixes
    prefix_separator := PyVal.str prefix_separator
    msg_fore := PyVal.str msg_fore
    msg_back := PyVal.str msg_back
    msg_style := PyVal.str msg_style
    info_fore := PyVal.str info_fore
    info_back := PyVal.str info_back
    info_style := PyVal.str info_style
    warn_fore := PyVal.str warn_fore
    warn_back := PyVal.str warn_back
    warn_style := PyVal.str warn_style
    error_fore := PyVal.str error_fore
    error_back := PyVal.str error_back
    error_style := PyVal.str error_style
    extra_attrs := [] }

/-- Modelled from the spec: the word-splitting step of the wrap
(`textwrap`'s whitespace normalisation; the wrapping code itself is the
stdlib, not part of this repository).  Accumulator-based split of a
character list into maximal runs of non-whitespace. -/
def splitWSAux : List Char → List Char → List (List Char)
  | [], acc => if acc.isEmpty then [] else [acc.reverse]
  | c :: cs, acc =>
    if isPySpace c then
      if acc.isEmpty then splitWSAux cs []
      else acc.reverse :: splitWSAux cs []
    else splitWSAux cs (c :: acc)

/-- Modelled from the spec: the words of a text, in order. -/
def splitWS (l : List Char) : List (List Char) := splitWSAux l []

/-- Sum over a word list of (one separating space + the word's length);
the bookkeeping measure for wrap-width arithmetic. -/
def sumExtra : List (List Char) → Nat
  | [] => 0
  | w :: ws => 1 + w.length + sumExtra ws

/-- Length of the words joined by single spaces (`0` for no words): the
whitespace-normalised length of a text. -/
def wordsJoinedLen : List (List Char) → Nat
  | [] => 0
  | w :: ws => w.length + sumExtra ws

/-- Modelled from the spec: break one over-long word into chunks of at
most `n` characters (`fuel` bounds the recursion by the word length). -/
def chunksGo (n : Nat) : Nat → List Char → List (List Char)
  | _, [] => []
  | 0, w => [w]
  | fuel + 1, w => w.take n :: chunksGo n fuel (w.drop n)

/-- Modelled from the spec: chunks of at most `n` characters covering `w`. -/
def chunks (n : Nat) (w : List Char) : List (List Char) :=
  if n = 0 then [w] else chunksGo n w.length w

/-- Concatenation of the per-word chunk lists, in order. -/
def flatW (f : List Char → List (List Char)) : List (List Char) → List (List Char)
  | [] => []
  | w :: ws => f w ++ flatW f ws

/-- Modelled from the spec: greedy packing of words into lines of at most
`avail` characters of content; a word is placed on the current line when
it fits after a single separating space, otherwise it starts a new line. -/
def greedy (avail : Nat) : List Char → List (List Char) → List (List Char)
  | cur, [] => [cur]
  | cur, w :: ws =>
    if cur.length + 1 + w.length ≤ avail then greedy avail (cur ++ ' ' :: w) ws
    else cur :: greedy avail w ws

/-- Modelled from the spec: `textwrap.fill(text, width,
initial_indent=indent, subsequent_indent=indent)` as the list of produced
lines — an indent-aware greedy word wrap in which first and continuation
lines both receive the composed line-prefix as their indent, over-long
words are broken, and a text with no words yields no lines. -/
def fillLines (text : String) (width : Int) (indent : String) : List String :=
  let avail : Nat := max 1 (width - (indent.length : Int)).toNat
  let pieces := flatW (chunks avail) (splitWS text.data)
  match pieces with
  | [] => []
  | p :: ps => (greedy avail p ps).map (fun l => indent ++ String.mk l)

/-- The lines `print(tw.fill(line, ...), file=file)` emits for one
argument: the fill's lines, or a single empty line when the fill is the
empty string. -/
def argLines (a : String) (width : Int) (indent : String) : List String :=
  let ls := fillLines a width indent
  if ls.isEmpty then [""] else ls

/-- The lines the `for line in args` loop of `print_msg` emits. -/
def argsLines (width : Int) (indent : String) : List String → List String
  | [] => []
  | a :: as => argLines a width indent ++ argsLines width indent as

/-- The composed line-prefix of `print_msg` (src/msg.py lines 369-373):
join the prefix stack with the separator, strip, append the message-type
tag (separated if a prefix is present), and append a trailing separator
when non-empty. -/
def pprefOf (sep : String) (prefs : List String) (msg_type : String) : String :=
  let p0 := pyStrip (pyJoin sep prefs)
  let p1 := if msg_type ≠ "" then (if p0 ≠ "" then p0 ++ sep else p0) ++ msg_type
            else p0
  if p1 ≠ "" then p1 ++ sep else p1

/-- The output of one `print_msg` call: the optional colour-start token
written before the first line, the emitted text lines, and the optional
style reset written after the last line. -/
structure PrintOut where
  color_start : Option String
  out_lines : List String
  color_reset : Option String
deriving DecidableEq, Repr

/-- `Msg.print_msg` (src/msg.py lines 345-384) as a pure function from
the state to the written output.  `back`/`fore`/`style`/`wrap` are the
keyword parameters (`PyVal.none` when omitted, defaulting to the standard
triple and the global wrap flag); `sep`/`end` are accepted by the source
but never forwarded to `print`, and the sink choice does not affect the
written text, so neither is part of the model.  `print_msg` performs no
state mutation. -/
def print_msg (s : Msg) (args : List String) (back fore style wrap : PyVal)
    (msg_type : String) : Except PyErr PrintOut :=
  match asStr s.prefix_separator, asStrList s.prefixes with
  | Except.ok sp, Except.ok prefs =>
    let backv := if back = PyVal.none then s.msg_back else back
    let forev := if fore = PyVal.none then s.msg_fore else fore
    let stylev := if style = PyVal.none then s.msg_style else style
    let wrapv := if wrap = PyVal.none then s.use_textwrap else wrap
    let ppref := pprefOf sp prefs msg_type
    match (if pyTruthy wrapv then asInt s.columns else Except.ok 65534) with
    | Except.ok wcols =>
      let cstart := if pyTruthy s.use_color
        then some (pyStr backv ++ pyStr forev ++ pyStr stylev) else Option.none
      let creset := if pyTruthy s.use_color then some styleResetAll else Option.none
      Except.ok { color_start := cstart
                  out_lines := argsLines wcols ppref args
                  color_reset := creset }
    | Except.error e => Except.error e
  | Except.error e, _ => Except.error e
  | _, Except.error e => Except.error e

/-- `Msg.msg` (src/msg.py lines 386-395): standard kind, no tag. -/
def Msg.msg (s : Msg) (args : List String) : Except PyErr PrintOut :=
  print_msg s args s.msg_back s.msg_fore s.msg_style PyVal.none ""

/-- `Msg.info` (src/msg.py lines 397-407): info kind, tag `"info"`. -/
def Msg.info (s : Msg) (args : List String) : Except PyErr PrintOut :=
  print_msg s args s.info_back s.info_fore s.info_style PyVal.none "info"

/-- `Msg.warn` (src/msg.py lines 409-419): warning kind, tag `"warn"`. -/
def Msg.warn (s : Msg) (args : List String) : Except PyErr PrintOut :=
  print_msg s args s.warn_back s.warn_fore s.warn_style PyVal.none "warn"

/-- `Msg.error` (src/msg.py lines 421-431): error kind, tag `"error"`. -/
def Msg.error (s : Msg) (args : List String) : Except PyErr PrintOut :=
  print_msg s args s.error_back s.error_fore s.error_style PyVal.none "error"

/-- The rule width computed by `Msg.line` (src/msg.py lines 442-447):
when the rendered prefix is non-empty the prefix length plus separator
length is subtracted from the requested width, flooring at `0` — note
this applies to an explicitly supplied width as well as to the default. -/
def lineRuleWidth (sp : String) (prefs : List String) (cols : Int) : Int :=
  let pl : Nat := (pyStrip (pyJoin sp prefs)).length
  if pl ≠ 0 then
    let c := cols - ((pl : Int) + (sp.length : Int))
    if c < 1 then 0 else c
  else cols

/-- `Msg.line` (src/msg.py lines 433-449): print a rule of `char`
repeated, width defaulting to `columns`, through `print_msg` with the
standard style triple and no message-type tag. -/
def Msg.line (s : Msg) (cols : Option Int) (char : String) : Except PyErr PrintOut :=
  match (match cols with
         | some n => Except.ok n
         | Option.none => asInt s.columns : Except PyErr Int) with
  | Except.ok c0 =>
    match asStr s.prefix_separator, asStrList s.prefixes with
    | Except.ok sp, Except.ok prefs =>
      print_msg s [pyRepeat char (lineRuleWidth sp prefs c0)]
        s.msg_back s.msg_fore s.msg_style PyVal.none ""
    | Except.error e, _ => Except.error e
    | _, Except.error e => Except.error e
  | Except.error e => Except.error e

/-- One public operation on a `Msg` instance (print operations never
mutate the state, so a single constructor covers all of them). -/
inductive Op where
  | set_columns (v : PyVal)
  | set_rows (v : PyVal)
  | enable_color (v : PyVal)
  | enable_textwrap (v : PyVal)
  | set_colors (kwargs : List (String × PyVal))
  | prefix_set (v : PyVal)
  | prefix_add (v : PyVal)
  | prefix_pop
  | print_op

/-- The state after a call that may raise: on an exception the caller
observes the state carried by the error. -/
def resultState : Except (PyErr × Msg) (Msg × PyVal) → Msg
  | Except.ok (s, _) => s
  | Except.error (_, s) => s

/-- The state after `set_colors` (which returns no value). -/
def resultState' : Except (PyErr × Msg) Msg → Msg
  | Except.ok s => s
  | Except.error (_, s) => s

/-- Execute one public operation, keeping the state an exception leaves
behind. -/
def step (s : Msg) : Op → Msg
  | Op.set_columns v => resultState (set_columns s v)
  | Op.set_rows v => resultState (set_rows s v)
  | Op.enable_color v => resultState (enable_color s v)
  | Op.enable_textwrap v => resultState (enable_textwrap s v)
  | Op.set_colors kw => resultState' (set_colors s kw)
  | Op.prefix_set v => resultState (prefix_set s v)
  | Op.prefix_add v => resultState (prefix_add s v)
  | Op.prefix_pop => resultState (prefix_pop s)
  | Op.print_op => s

/-- Run a sequence of public operations. -/
def runOps (s : Msg) (ops : List Op) : Msg := List.foldl step s ops

/-- A `set_colors` call that does not name the `columns`/`rows`
attributes (which `set_colors` would happily overwrite); every other
operation is unrestricted. -/
def goodOp : Op → Bool
  | Op.set_colors kw => kw.all (fun p => p.1 ≠ "columns" && p.1 ≠ "rows")
  | _ => true

/-- The value of a `columns`/`rows` attribute counts as at least `1`
(Python `True` compares equal to `1`). -/
def pyGEone : PyVal → Bool
  | PyVal.int n => 1 ≤ n
  | PyVal.bool b => b
  | _ => false

/-- Whether a call completed without raising. -/
def exOk : Except (PyErr × Msg) Msg → Bool
  | Except.ok _ => true
  | Except.error _ => false

/-- A concrete well-typed formatter state used by the concrete claims:
columns 20, rows 24, colour off, wrap on, empty prefix stack, the default
separator and the default colorama style triples of `Msg.__init__`. -/
def baseState : Msg :=
  { version := PyVal.str "0.8.2"
    columns := PyVal.int 20
    rows := PyVal.int 24
    use_color := PyVal.bool false
    use_textwrap := PyVal.bool true
    prefixes := PyVal.strlist []
    prefix_separator := PyVal.str ": "
    msg_fore := PyVal.str "\x1b[37m"
    msg_back := PyVal.str "\x1b[40m"
    msg_style := PyVal.str "\x1b[22m"
    info_fore := PyVal.str "\x1b[32m"
    info_back := PyVal.str "\x1b[40m"
    info_style := PyVal.str "\x1b[2m"
    warn_fore := PyVal.str "\x1b[33m"
    warn_back := PyVal.str "\x1b[40m"
    warn_style := PyVal.str "\x1b[22m"
    error_fore := PyVal.str "\x1b[31m"
    error_back := PyVal.str "\x1b[40m"
    error_style := PyVal.str "\x1b[1m"
    extra_attrs := [] }

/-- `baseState` after `prefix_set("abcd")`: rendered prefix of length 4. -/
def abcdState : Msg := { baseState with prefixes := PyVal.strlist ["abcd"] }

/-- `baseState` after `prefix_set("info")`: composed line-prefix `"info: "`. -/
def c6State : Msg := { baseState with prefixes := PyVal.strlist ["info"] }

/-- `baseState` with wrapping globally disabled. -/
def nowrapState : Msg := { baseState with use_textwrap := PyVal.bool false }

/-- `baseState` after `prefix_set("")` then `prefix_add("")`: a stack of
two empty segments. -/
def twoBlankState : Msg := { baseState with prefixes := PyVal.strlist ["", ""] }

/-- `baseState` after `prefix_set("")`: a stack of one empty segment. -/
def oneBlankState : Msg := { baseState with prefixes := PyVal.strlist [""] }

/-- `setattr` with a key other than `"columns"` leaves `columns` alone. -/
theorem setattr_columns_eq (s : Msg) (k : String) (v : PyVal) (h : k ≠ "columns") :
    (setattr s k v).columns = s.columns := by
  unfold setattr
  simp only [apply_ite Msg.columns]
  rw [if_neg h]
  simp

/-- `setattr` with a key other than `"rows"` leaves `rows` alone. -/
theorem setattr_rows_eq (s : Msg) (k : String) (v : PyVal) (h : k ≠ "rows") :
    (setattr s k v).rows = s.rows := by
  unfold setattr
  simp only [apply_ite Msg.rows]
  rw [if_neg h]
  simp

/-- A `set_colors` call avoiding the `"columns"`/`"rows"` keys leaves the
`columns` and `rows` attributes alone, whether or not it raises. -/
theorem set_colors_preserves_dims : ∀ (kw : List (String × PyVal)) (s : Msg),
    (∀ p ∈ kw, p.1 ≠ "columns" ∧ p.1 ≠ "rows") →
    (resultState' (set_colors s kw)).columns = s.columns ∧
    (resultState' (set_colors s kw)).rows = s.rows
  | [], _, _ => ⟨rfl, rfl⟩
  | kv :: rest, s, h => by
    have hkv := h kv (List.mem_cons_self kv rest)
    have hrest := fun p hp => h p (List.mem_cons_of_mem kv hp)
    simp only [set_colors]
    cases hc : hasattr kv.1 with
    | false => simp only [Bool.false_eq_true, if_false]; exact ⟨rfl, rfl⟩
    | true =>
      simp only [if_true]
      have ih := set_colors_preserves_dims rest (applyKw s kv) hrest
      refine ⟨?_, ?_⟩
      · rw [ih.1]; exact setattr_columns_eq s kv.1 _ hkv.1
      · rw [ih.2]; exact setattr_rows_eq s kv.1 _ hkv.2

/-- Each public operation preserves positive `columns`/`rows`, provided a
`set_colors` call does not name those attributes. -/
theorem step_preserves_dims (s : Msg) (op : Op) (hop : goodOp op = true)
    (hc : pyGEone s.columns = true) (hr : pyGEone s.rows = true) :
    pyGEone (step s op).columns = true ∧ pyGEone (step s op).rows = true := by
  cases op with
  | set_columns v =>
    cases v <;> simp only [step, set_columns, resultState]
    case int n =>
      split_ifs with h
      · exact ⟨hc, hr⟩
      · refine ⟨?_, hr⟩
        simp only [pyGEone, decide_eq_true_eq]
        omega
    case bool b =>
      cases b <;> simp only [Bool.false_eq_true, if_false, if_true, resultState]
      · exact ⟨hc, hr⟩
      · exact ⟨rfl, hr⟩
    all_goals exact ⟨hc, hr⟩
  | set_rows v =>
    cases v <;> simp only [step, set_rows, resultState]
    case int n =>
      split_ifs with h
      · exact ⟨hc, hr⟩
      · refine ⟨hc, ?_⟩
        simp only [pyGEone, decide_eq_true_eq]
        omega
    case bool b =>
      cases b <;> simp only [Bool.false_eq_true, if_false, if_true, resultState]
      · exact ⟨hc, hr⟩
      · exact ⟨hc, rfl⟩
    all_goals exact ⟨hc, hr⟩
  | enable_color v =>
    simp only [step, enable_color]
    split_ifs <;> exact ⟨hc, hr⟩
  | enable_textwrap v =>
    simp only [step, enable_textwrap]
    split_ifs <;> exact ⟨hc, hr⟩
  | set_colors kw =>
    simp only [goodOp, List.all_eq_true] at hop
    have h : ∀ p ∈ kw, p.1 ≠ "columns" ∧ p.1 ≠ "rows" := by
      intro p hp
      have := hop p hp
      simp only [Bool.and_eq_true, decide_eq_true_eq] at this
      exact this
    have := set_colors_preserves_dims kw s h
    simp only [step]
    rw [this.1, this.2]
    exact ⟨hc, hr⟩
  | prefix_set v =>
    cases v <;> simp only [step, prefix_set, resultState] <;> exact ⟨hc, hr⟩
  | prefix_add v =>
    cases v <;> simp only [step, prefix_add, resultState]
    case str p =>
      cases hp : s.prefixes <;> simp only [resultState] <;> exact ⟨hc, hr⟩
    all_goals exact ⟨hc, hr⟩
  | prefix_pop =>
    simp only [step, prefix_pop]
    cases hp : s.prefixes <;> simp only [resultState] <;> exact ⟨hc, hr⟩
  | print_op => exact ⟨hc, hr⟩

/-- Positive `columns`/`rows` are preserved along any run of public
operations whose `set_colors` calls avoid the `columns`/`rows` keys. -/
theorem runOps_preserves_dims : ∀ (ops : List Op) (s : Msg),
    (∀ op ∈ ops, goodOp op = true) →
    pyGEone s.columns = true → pyGEone s.rows = true →
    pyGEone (runOps s ops).columns = true ∧ pyGEone (runOps s ops).rows = true
  | [], _, _, hc, hr => ⟨hc, hr⟩
  | op :: ops, s, h, hc, hr => by
    have hstep := step_preserves_dims s op (h op (List.mem_cons_self op ops)) hc hr
    have := runOps_preserves_dims ops (step s op)
      (fun o ho => h o (List.mem_cons_of_mem op ho)) hstep.1 hstep.2
    simpa [runOps, List.foldl] using this

/-- Every word the splitter produces is non-empty. -/
theorem splitWSAux_mem_ne_nil : ∀ (l acc w : List Char),
    w ∈ splitWSAux l acc → w ≠ []
  | [], acc, w, hw => by
    simp only [splitWSAux] at hw
    cases hacc : acc.isEmpty with
    | true => simp [hacc] at hw
    | false =>
      simp only [hacc, Bool.false_eq_true, if_false, List.mem_singleton] at hw
      subst hw
      simp only [ne_eq, List.reverse_eq_nil_iff]
      exact fun h => by simp [h] at hacc
  | c :: cs, acc, w, hw => by
    simp only [splitWSAux] at hw
    by_cases hc : isPySpace c
    · simp only [hc, if_true] at hw
      cases hacc : acc.isEmpty with
      | true => simp only [hacc, if_true] at hw; exact splitWSAux_mem_ne_nil cs [] w hw
      | false =>
        simp only [hacc, Bool.false_eq_true, if_false, List.mem_cons] at hw
        cases hw with
        | inl h =>
          subst h
          simp only [ne_eq, List.reverse_eq_nil_iff]
          exact fun h => by simp [h] at hacc
        | inr h => exact splitWSAux_mem_ne_nil cs [] w h
    · simp only [hc, Bool.false_eq_true, if_false] at hw
      exact splitWSAux_mem_ne_nil cs (c :: acc) w hw

/-- Every word of a split text is non-empty. -/
theorem splitWS_mem_ne_nil (l : List Char) (w : List Char) (hw : w ∈ splitWS l) :
    w ≠ [] :=
  splitWSAux_mem_ne_nil l [] w hw

/-- `sumExtra` is additive over append. -/
theorem sumExtra_append : ∀ (xs ys : List (List Char)),
    sumExtra (xs ++ ys) = sumExtra xs + sumExtra ys
  | [], ys => by simp [sumExtra]
  | x :: xs, ys => by
    have ih := sumExtra_append xs ys
    simp only [List.cons_append, sumExtra, List.append_eq] at ih ⊢
    omega

/-- For a non-empty word list the joined length is one less than
`sumExtra`. -/
theorem wordsJoinedLen_eq_sumExtra (ws : List (List Char)) (h : ws ≠ []) :
    wordsJoinedLen ws + 1 = sumExtra ws := by
  cases ws with
  | nil => exact absurd rfl h
  | cons w ws => simp only [wordsJoinedLen, sumExtra]; omega

/-- The splitter's words fit inside the text: their `sumExtra` is at most
the text length plus the accumulator length plus one. -/
theorem splitWSAux_sumExtra_le : ∀ (l acc : List Char),
    sumExtra (splitWSAux l acc) ≤ l.length + acc.length + 1
  | [], acc => by
    simp only [splitWSAux]
    cases hacc : acc.isEmpty with
    | true => simp [sumExtra]
    | false =>
      simp only [Bool.false_eq_true, if_false, sumExtra, List.length_reverse,
        List.length_nil]
      omega
  | c :: cs, acc => by
    simp only [splitWSAux]
    by_cases hc : isPySpace c
    · simp only [hc, if_true]
      cases hacc : acc.isEmpty with
      | true =>
        have := splitWSAux_sumExtra_le cs []
        simp only [List.length_cons, if_true]
        simp only [List.length_nil] at this
        omega
      | false =>
        have := splitWSAux_sumExtra_le cs []
        simp only [Bool.false_eq_true, if_false, sumExtra, List.length_reverse,
          List.length_cons]
        simp only [List.length_nil] at this
        omega
    · simp only [hc, Bool.false_eq_true, if_false]
      have := splitWSAux_sumExtra_le cs (c :: acc)
      simp only [List.length_cons] at this ⊢
      omega

/-- The whitespace-normalised length of a text is at most its length. -/
theorem wordsJoinedLen_splitWS_le (l : List Char) :
    wordsJoinedLen (splitWS l) ≤ l.length := by
  cases hws : splitWS l with
  | nil => simp [wordsJoinedLen]
  | cons w ws =>
    have h1 : wordsJoinedLen (w :: ws) + 1 = sumExtra (w :: ws) :=
      wordsJoinedLen_eq_sumExtra _ (by simp)
    have h2 := splitWSAux_sumExtra_le l []
    rw [show splitWSAux l [] = splitWS l from rfl, hws] at h2
    simp only [List.length_nil] at h2
    omega

/-- Each chunk a word is broken into is non-empty and at most `n` long. -/
theorem chunksGo_mem (n : Nat) (hn : 1 ≤ n) : ∀ (fuel : Nat) (w : List Char),
    w.length ≤ fuel → ∀ p ∈ chunksGo n fuel w, p ≠ [] ∧ p.length ≤ n
  | 0, w, hw, p, hp => by
    cases w with
    | nil => simp [chunksGo] at hp
    | cons c cs => simp at hw
  | fuel + 1, w, hw, p, hp => by
    cases w with
    | nil => simp [chunksGo] at hp
    | cons c cs =>
      simp only [chunksGo, List.mem_cons] at hp
      cases hp with
      | inl h =>
        subst h
        refine ⟨?_, by simp [List.length_take]⟩
        cases n with
        | zero => omega
        | succ m => simp [List.take]
      | inr h =>
        have hlen : ((c :: cs).drop n).length ≤ fuel := by
          simp only [List.length_drop, List.length_cons] at *
          omega
        exact chunksGo_mem n hn fuel ((c :: cs).drop n) hlen p h

/-- Breaking a word can only lengthen its `sumExtra` contribution. -/
theorem chunksGo_sumExtra (n : Nat) (hn : 1 ≤ n) : ∀ (fuel : Nat) (w : List Char),
    w ≠ [] → w.length ≤ fuel → 1 + w.length ≤ sumExtra (chunksGo n fuel w)
  | 0, w, hne, hw => by
    cases w with
    | nil => exact absurd rfl hne
    | cons c cs => simp at hw
  | fuel + 1, w, hne, hw => by
    cases w with
    | nil => exact absurd rfl hne
    | cons c cs =>
      simp only [chunksGo, sumExtra]
      by_cases hdrop : (c :: cs).drop n = []
      · have hle : (c :: cs).length ≤ n := by
          have := List.length_drop n (c :: cs)
          rw [hdrop] at this
          simp only [List.length_nil] at this
          omega
        rw [hdrop, List.take_of_length_le hle]
        simp [sumExtra]
      · have hgt : n < (c :: cs).length := by
          by_contra hcon
          exact hdrop (List.drop_eq_nil_of_le (by omega))
        have hlen : ((c :: cs).drop n).length ≤ fuel := by
          simp only [List.length_drop]
          omega
        have ih := chunksGo_sumExtra n hn fuel ((c :: cs).drop n) (by
          intro hcon
          exact hdrop hcon) hlen
        simp only [List.length_drop] at ih
        simp only [List.length_take]
        omega

/-- Chunk-list membership property at the `chunks` wrapper. -/
theorem chunks_mem (n : Nat) (hn : 1 ≤ n) (w : List Char) :
    ∀ p ∈ chunks n w, p ≠ [] ∧ p.length ≤ n := by
  unfold chunks
  rw [if_neg (by omega)]
  exact chunksGo_mem n hn w.length w le_rfl

/-- Chunk-list `sumExtra` bound at the `chunks` wrapper. -/
theorem chunks_sumExtra (n : Nat) (hn : 1 ≤ n) (w : List Char) (hw : w ≠ []) :
    1 + w.length ≤ sumExtra (chunks n w) := by
  unfold chunks
  rw [if_neg (by omega)]
  exact chunksGo_sumExtra n hn w.length w hw le_rfl

/-- A word already short enough is kept whole. -/
theorem chunks_of_short (n : Nat) (hn : 1 ≤ n) (w : List Char) (hne : w ≠ [])
    (hw : w.length ≤ n) : chunks n w = [w] := by
  unfold chunks
  rw [if_neg (by omega)]
  cases w with
  | nil => exact absurd rfl hne
  | cons c cs =>
    simp only [List.length_cons, chunksGo]
    rw [List.drop_eq_nil_of_le (by simpa using hw), List.take_of_length_le (by simpa using hw)]
    cases cs.length with
    | zero => simp [chunksGo]
    | succ m => simp [chunksGo]

/-- All pieces produced from non-empty words are non-empty and fit. -/
theorem flatW_chunks_mem (n : Nat) (hn : 1 ≤ n) : ∀ (ws : List (List Char)),
    (∀ w ∈ ws, w ≠ []) → ∀ p ∈ flatW (chunks n) ws, p ≠ [] ∧ p.length ≤ n
  | [], _, p, hp => by simp [flatW] at hp
  | w :: ws, h, p, hp => by
    simp only [flatW, List.mem_append] at hp
    cases hp with
    | inl hin => exact chunks_mem n hn w p hin
    | inr hin =>
      exact flatW_chunks_mem n hn ws (fun x hx => h x (List.mem_cons_of_mem w hx)) p hin

/-- Breaking words can only lengthen the total `sumExtra`. -/
theorem flatW_chunks_sumExtra (n : Nat) (hn : 1 ≤ n) : ∀ (ws : List (List Char)),
    (∀ w ∈ ws, w ≠ []) → sumExtra ws ≤ sumExtra (flatW (chunks n) ws)
  | [], _ => le_rfl
  | w :: ws, h => by
    have h1 := chunks_sumExtra n hn w (h w (List.mem_cons_self w ws))
    have h2 := flatW_chunks_sumExtra n hn ws (fun x hx => h x (List.mem_cons_of_mem w hx))
    simp only [flatW, sumExtra_append, sumExtra]
    omega

/-- When every word already fits, breaking is the identity. -/
theorem flatW_chunks_of_short (n : Nat) (hn : 1 ≤ n) : ∀ (ws : List (List Char)),
    (∀ w ∈ ws, w ≠ [] ∧ w.length ≤ n) → flatW (chunks n) ws = ws
  | [], _ => rfl
  | w :: ws, h => by
    have hw := h w (List.mem_cons_self w ws)
    simp only [flatW, chunks_of_short n hn w hw.1 hw.2,
      flatW_chunks_of_short n hn ws (fun x hx => h x (List.mem_cons_of_mem w hx))]
    rfl

/-- Greedy packing always yields at least one line. -/
theorem greedy_ne_nil (avail : Nat) : ∀ (ws : List (List Char)) (cur : List Char),
    greedy avail cur ws ≠ []
  | [], cur => by simp [greedy]
  | w :: ws, cur => by
    simp only [greedy]
    split_ifs
    · exact greedy_ne_nil avail ws (cur ++ ' ' :: w)
    · simp

/-- When greedy packing yields one single line, that line contains every
word: its length is the joined length of all content. -/
theorem greedy_singleton (avail : Nat) : ∀ (ws : List (List Char)) (cur x : List Char),
    greedy avail cur ws = [x] → x.length = cur.length + sumExtra ws
  | [], cur, x, h => by
    simp only [greedy, List.cons.injEq, and_true] at h
    subst h
    simp [sumExtra]
  | w :: ws, cur, x, h => by
    simp only [greedy] at h
    split_ifs at h with hfit
    · have := greedy_singleton avail ws (cur ++ ' ' :: w) x h
      simp only [List.length_append, List.length_cons] at this
      simp only [sumExtra]
      omega
    · exfalso
      have : greedy avail w ws = [] := (List.cons.injEq _ _ _ _).mp h |>.2
      exact greedy_ne_nil avail ws w this

/-- Every line greedy packing produces fits in `avail` characters,
provided the current line and every word fit. -/
theorem greedy_line_len (avail : Nat) : ∀ (ws : List (List Char)) (cur : List Char),
    cur.length ≤ avail → (∀ w ∈ ws, w.length ≤ avail) →
    ∀ l ∈ greedy avail cur ws, l.length ≤ avail
  | [], cur, hcur, _, l, hl => by
    simp only [greedy, List.mem_singleton] at hl
    subst hl
    exact hcur
  | w :: ws, cur, hcur, hws, l, hl => by
    simp only [greedy] at hl
    split_ifs at hl with hfit
    · exact greedy_line_len avail ws (cur ++ ' ' :: w)
        (by simp only [List.length_append, List.length_cons]; omega)
        (fun x hx => hws x (List.mem_cons_of_mem w hx)) l hl
    · cases hl with
      | head => exact hcur
      | tail _ htl =>
        exact greedy_line_len avail ws w (hws w (List.mem_cons_self w ws))
          (fun x hx => hws x (List.mem_cons_of_mem w hx)) l htl

/-- When all the content fits on one line, greedy packing yields exactly
one line. -/
theorem greedy_all_fits (avail : Nat) : ∀ (ws : List (List Char)) (cur : List Char),
    cur.length + sumExtra ws ≤ avail → (greedy avail cur ws).length = 1
  | [], cur, _ => rfl
  | w :: ws, cur, h => by
    simp only [sumExtra] at h
    simp only [greedy, if_pos (show cur.length + 1 + w.length ≤ avail by omega)]
    exact greedy_all_fits avail ws (cur ++ ' ' :: w)
      (by simp only [List.length_append, List.length_cons]; omega)

/-- Any member of a word list is no longer than the joined length. -/
theorem mem_length_le_sumExtra : ∀ (ws : List (List Char)) (w : List Char),
    w ∈ ws → w.length + 1 ≤ sumExtra ws
  | [], w, hw => by simp at hw
  | x :: ws, w, hw => by
    cases hw with
    | head => simp only [sumExtra]; omega
    | tail _ htl =>
      have := mem_length_le_sumExtra ws w htl
      simp only [sumExtra]
      omega

/-- Any word of a list is no longer than the whole joined length. -/
theorem mem_length_le_wordsJoinedLen (ws : List (List Char)) (w : List Char)
    (hw : w ∈ ws) : w.length ≤ wordsJoinedLen ws := by
  cases ws with
  | nil => simp at hw
  | cons x ws =>
    cases hw with
    | head => simp only [wordsJoinedLen]; omega
    | tail _ htl =>
      have := mem_length_le_sumExtra ws w htl
      simp only [wordsJoinedLen]
      omega

/-- Claim C1 counterexample: `set_colors` called with the keyword
`columns` — which is not one of the twelve style fields — does not raise:
the call succeeds (overwriting the `columns` attribute with the
passthrough-resolved string), refuting the claim that any key outside the
twelve style fields raises `InvalidArgument`. -/
theorem set_colors_nonstyle_key_accepted :
    set_colors baseState [("columns", PyVal.str "YELLOW")]
      = Except.ok { baseState with columns := PyVal.str "YELLOW" } ∧
    "columns" ∉ styleFields := by
  refine ⟨rfl, by decide⟩

/-- Claim C1 (amended): `set_colors` raises `InvalidArgument` exactly
when some keyword names no attribute of the instance; a call whose keys
all pass `hasattr` — the twelve style fields, but equally the other
instance attributes and the method names — does not raise. -/
theorem set_colors_ok_iff_all_keys_attrs : ∀ (kwargs : List (String × PyVal)) (s : Msg),
    exOk (set_colors s kwargs) = true ↔ ∀ kv ∈ kwargs, hasattr kv.1 = true
  | [], s => by simp [set_colors, exOk]
  | kv :: rest, s => by
    simp only [set_colors]
    cases hc : hasattr kv.1 with
    | false =>
      simp only [Bool.false_eq_true, if_false, exOk]
      constructor
      · intro h; exact absurd h (by simp)
      · intro h
        have := h kv (List.mem_cons_self kv rest)
        rw [hc] at this
        exact absurd this (by simp)
    | true =>
      simp only [if_true]
      rw [set_colors_ok_iff_all_keys_attrs rest (applyKw s kv)]
      constructor
      · intro h x hx
        cases hx with
        | head => exact hc
        | tail _ ht => exact h x ht
      · intro h x hx
        exact h x (List.mem_cons_of_mem kv hx)

/-- Claim C2 counterexample: `set_colors(info_fore='RED', bogus='x')`
raises, but the state at the raise has `info_fore` already rebound to the
resolved `Fore.RED` token — the earlier keyword was applied before the
later invalid one was seen, so the state after the call differs from the
state before it. -/
theorem set_colors_mutates_before_raising :
    set_colors baseState [("info_fore", PyVal.str "RED"), ("bogus", PyVal.str "x")]
      = Except.error (PyErr.valueError,
          { baseState with info_fore := PyVal.str "\x1b[31m" }) ∧
    ({ baseState with info_fore := PyVal.str "\x1b[31m" } : Msg) ≠ baseState := by
  refine ⟨rfl, by decide⟩

/-- Claim C2 (amended): when `set_colors` raises `InvalidArgument`, the
keywords strictly before the first invalid one have been resolved and
assigned, in call order, and nothing later has; in particular a call
whose first keyword is invalid leaves the state unchanged (`pre = []`). -/
theorem set_colors_error_applies_earlier_keys :
    ∀ (kwargs : List (String × PyVal)) (s : Msg) (e : PyErr) (s' : Msg),
    set_colors s kwargs = Except.error (e, s') →
    ∃ pre kv post, kwargs = pre ++ kv :: post ∧
      (∀ p ∈ pre, hasattr p.1 = true) ∧ hasattr kv.1 = false ∧
      e = PyErr.valueError ∧ s' = List.foldl applyKw s pre
  | [], s, e, s', h => by simp [set_colors] at h
  | kv :: rest, s, e, s', h => by
    simp only [set_colors] at h
    cases hc : hasattr kv.1 with
    | false =>
      rw [hc] at h
      simp only [Bool.false_eq_true, if_false, Except.error.injEq, Prod.mk.injEq] at h
      exact ⟨[], kv, rest, rfl, by simp, hc, h.1.symm, h.2.symm⟩
    | true =>
      rw [hc] at h
      simp only [if_true] at h
      obtain ⟨pre, kv', post, heq, hpre, hkv', he, hs'⟩ :=
        set_colors_error_applies_earlier_keys rest (applyKw s kv) e s' h
      refine ⟨kv :: pre, kv', post, by rw [heq, List.cons_append], ?_, hkv', he, hs'⟩
      intro p hp
      cases hp with
      | head => exact hc
      | tail _ ht => exact hpre p ht

/-- Claim C2 witness: a concrete raising call, with the decomposition
into applied earlier keywords and the invalid key. -/
theorem set_colors_error_applies_earlier_keys_witness :
    ∃ pre kv post,
      ([(("info_fore" : String), PyVal.str "RED"), ("zzz", PyVal.str "x")]
        : List (String × PyVal)) = pre ++ kv :: post ∧
      (∀ p ∈ pre, hasattr p.1 = true) ∧ hasattr kv.1 = false ∧
      PyErr.valueError = PyErr.valueError ∧
      ({ baseState with info_fore := PyVal.str "\x1b[31m" } : Msg)
        = List.foldl applyKw baseState pre :=
  set_colors_error_applies_earlier_keys
    [("info_fore", PyVal.str "RED"), ("zzz", PyVal.str "x")]
    baseState PyErr.valueError
    { baseState with info_fore := PyVal.str "\x1b[31m" } (by rfl)

/-- Claim C5: `set_columns` stores and returns any positive integer, and
raises `InvalidArgument` leaving `columns` unchanged for non-positive
integers and for non-integer arguments. -/
theorem set_columns_spec :
    (∀ (s : Msg) (n : Int), 0 < n →
       set_columns s (PyVal.int n)
         = Except.ok ({ s with columns := PyVal.int n }, PyVal.int n)) ∧
    (∀ (s : Msg) (n : Int), n ≤ 0 →
       set_columns s (PyVal.int n) = Except.error (PyErr.valueError, s)) ∧
    (∀ (s : Msg) (t : String),
       set_columns s (PyVal.str t) = Except.error (PyErr.valueError, s)) ∧
    (∀ s : Msg, set_columns s PyVal.none = Except.error (PyErr.valueError, s)) := by
  refine ⟨?_, ?_, ?_, ?_⟩
  · intro s n h
    simp only [set_columns]
    rw [if_neg (by omega)]
  · intro s n h
    simp only [set_columns]
    rw [if_pos h]
  · intro s t; rfl
  · intro s; rfl

/-- Claim C5 witness: `set_columns` at `7`, `0`, `-1` and a string. -/
theorem set_columns_spec_witness :
    set_columns baseState (PyVal.int 7)
      = Except.ok ({ baseState with columns := PyVal.int 7 }, PyVal.int 7) ∧
    set_columns baseState (PyVal.int 0) = Except.error (PyErr.valueError, baseState) ∧
    set_columns baseState (PyVal.int (-1)) = Except.error (PyErr.valueError, baseState) ∧
    set_columns baseState (PyVal.str "x") = Except.error (PyErr.valueError, baseState) :=
  ⟨set_columns_spec.1 baseState 7 (by decide),
   set_columns_spec.2.1 baseState 0 (by decide),
   set_columns_spec.2.1 baseState (-1) (by decide),
   set_columns_spec.2.2.1 baseState "x"⟩

/-- Claim C8: colour-name resolution is case-insensitive on table hits —
two spellings with the same uppercase form resolve to the same token —
and total: a name whose uppercase form has no table entry is returned
unchanged instead of raising. -/
theorem color_resolution_case_insensitive_total :
    (∀ (t : List (String × String)) (c₁ c₂ tok : String), pyUpper c₁ = pyUpper c₂ →
       List.lookup (pyUpper c₁) t = some tok →
       get_color_code t (PyVal.str c₁) = PyVal.str tok ∧
       get_color_code t (PyVal.str c₂) = PyVal.str tok) ∧
    (∀ (t : List (String × String)) (c : String),
       List.lookup (pyUpper c) t = Option.none →
       get_color_code t (PyVal.str c) = PyVal.str c) := by
  constructor
  · intro t c₁ c₂ tok hup hl
    constructor
    · simp [get_color_code, hl]
    · simp only [get_color_code]
      rw [← hup, hl]
  · intro t c hl
    simp [get_color_code, hl]

/-- Claim C8 witness: `"RED"` and `"red"` resolve to the same `Fore`
token, and `"NOTACOLOR"` passes through unchanged. -/
theorem color_resolution_witness :
    (get_color_code foreTable (PyVal.str "RED") = PyVal.str "\x1b[31m" ∧
     get_color_code foreTable (PyVal.str "red") = PyVal.str "\x1b[31m") ∧
    get_color_code foreTable (PyVal.str "NOTACOLOR") = PyVal.str "NOTACOLOR" :=
  ⟨color_resolution_case_insensitive_total.1 foreTable "RED" "red" "\x1b[31m"
      (by decide) (by decide),
   color_resolution_case_insensitive_total.2 foreTable "NOTACOLOR" (by decide)⟩

/-- Claim C9: `enable_color` called with no argument (`None`) raises
(`NameError`, from the unbound bare name in the auto-detection branch)
before any assignment, leaving the whole state unchanged; with a boolean
argument it merely stores the flag, so colour auto-detection can only
ever happen at construction. -/
theorem enable_color_none_raises_before_assignment :
    (∀ s : Msg, enable_color s PyVal.none = Except.error (PyErr.nameError, s)) ∧
    (∀ (s : Msg) (b : Bool),
       enable_color s (PyVal.bool b)
         = Except.ok ({ s with use_color := PyVal.bool b }, PyVal.bool b)) := by
  constructor
  · intro s; rfl
  · intro s b
    unfold enable_color
    rw [if_neg (by simp)]

/-- Claim C3 counterexample: construction itself does not validate the
size arguments — `Msg(columns=-5)` is a reachable state (construction
followed by no operations) whose `columns` is `-5 < 1`. -/
theorem init_negative_columns_reachable :
    pyGEone ((runOps (Msg.init 80 24 ⟨true, true⟩ (some (-5)) Option.none Option.none
      true [] ": " "\x1b[37m" "\x1b[40m" "\x1b[22m" "\x1b[32m" "\x1b[40m" "\x1b[2m"
      "\x1b[33m" "\x1b[40m" "\x1b[22m" "\x1b[31m" "\x1b[40m" "\x1b[1m") []).columns)
      = false := rfl

/-- Claim C3 (amended): `columns ≥ 1` and `rows ≥ 1` hold in every state
reachable by public operations from a construction whose detected sizes
are positive and whose explicit size arguments are positive when nonzero
(zero or `None` falls back to detection), provided no `set_colors` call
names the `columns`/`rows` attributes (which it would overwrite without
validation). -/
theorem reachable_dims_positive (dc dr : Int) (stdout : PyStream)
    (cols rows : Option Int) (uc : Option Bool) (uw : Bool)
    (prefs : List String) (sp f1 f2 f3 f4 f5 f6 f7 f8 f9 f10 f11 f12 : String)
    (ops : List Op)
    (hdc : 1 ≤ dc) (hdr : 1 ≤ dr)
    (hcols : ∀ n, cols = some n → n = 0 ∨ 1 ≤ n)
    (hrows : ∀ n, rows = some n → n = 0 ∨ 1 ≤ n)
    (hops : ∀ op ∈ ops, goodOp op = true) :
    pyGEone (runOps (Msg.init dc dr stdout cols rows uc uw prefs sp
      f1 f2 f3 f4 f5 f6 f7 f8 f9 f10 f11 f12) ops).columns = true ∧
    pyGEone (runOps (Msg.init dc dr stdout cols rows uc uw prefs sp
      f1 f2 f3 f4 f5 f6 f7 f8 f9 f10 f11 f12) ops).rows = true := by
  apply runOps_preserves_dims ops _ hops
  · simp only [Msg.init, pyGEone, decide_eq_true_eq]
    cases cols with
    | none => exact hdc
    | some n =>
      show (1 : Int) ≤ if n = 0 then dc else n
      rcases hcols n rfl with h0 | h1
      · rw [if_pos h0]; exact hdc
      · rw [if_neg (by omega)]; exact h1
  · simp only [Msg.init, pyGEone, decide_eq_true_eq]
    cases rows with
    | none => exact hdr
    | some n =>
      show (1 : Int) ≤ if n = 0 then dr else n
      rcases hrows n rfl with h0 | h1
      · rw [if_pos h0]; exact hdr
      · rw [if_neg (by omega)]; exact h1

/-- Claim C3 witness: a valid construction followed by a concrete run of
setters, prefix operations, a style change and a print keeps both
dimensions at least `1`. -/
theorem reachable_dims_positive_witness :
    pyGEone (runOps (Msg.init 80 24 ⟨true, true⟩ Option.none Option.none Option.none
      true [] ": " "\x1b[37m" "\x1b[40m" "\x1b[22m" "\x1b[32m" "\x1b[40m" "\x1b[2m"
      "\x1b[33m" "\x1b[40m" "\x1b[22m" "\x1b[31m" "\x1b[40m" "\x1b[1m")
      [Op.set_columns (PyVal.int 40), Op.prefix_set (PyVal.str " x "),
       Op.set_colors [("info_fore", PyVal.str "RED")], Op.print_op,
       Op.enable_textwrap (PyVal.bool false), Op.prefix_pop,
       Op.set_columns (PyVal.int 0)]).columns = true ∧
    pyGEone (runOps (Msg.init 80 24 ⟨true, true⟩ Option.none Option.none Option.none
      true [] ": " "\x1b[37m" "\x1b[40m" "\x1b[22m" "\x1b[32m" "\x1b[40m" "\x1b[2m"
      "\x1b[33m" "\x1b[40m" "\x1b[22m" "\x1b[31m" "\x1b[40m" "\x1b[1m")
      [Op.set_columns (PyVal.int 40), Op.prefix_set (PyVal.str " x "),
       Op.set_colors [("info_fore", PyVal.str "RED")], Op.print_op,
       Op.enable_textwrap (PyVal.bool false), Op.prefix_pop,
       Op.set_columns (PyVal.int 0)]).rows = true :=
  reachable_dims_positive 80 24 ⟨true, true⟩ Option.none Option.none Option.none
    true [] ": " "\x1b[37m" "\x1b[40m" "\x1b[22m" "\x1b[32m" "\x1b[40m" "\x1b[2m"
    "\x1b[33m" "\x1b[40m" "\x1b[22m" "\x1b[31m" "\x1b[40m" "\x1b[1m" _
    (by decide) (by decide)
    (fun n h => Option.noConfusion h) (fun n h => Option.noConfusion h)
    (by decide)

/-- Claim C4 counterexample: with an active prefix of rendered length 4
and separator `": "`, the explicit-width call `line(10, '*')` emits a
rule of only 4 stars (the prefix overhead is subtracted from the
explicit width too), not 10. -/
theorem line_explicit_width_shrunk_by_prefix :
    Msg.line abcdState (some 10) "*"
      = Except.ok { color_start := Option.none, out_lines := ["abcd: ****"],
                    color_reset := Option.none } ∧
    ("abcd: ****" : String) ≠ "abcd: " ++ pyRepeat "*" 10 := by
  refine ⟨rfl, by decide⟩

/-- Claim C4 (amended): `line` emits `char` repeated `lineRuleWidth`
times, where the prefix-plus-separator overhead is subtracted (flooring
at 0) from the requested width — the default `columns` and an explicit
width alike; with no active prefix the width is used exactly, so
`line(10, '*')` emits exactly `"**********"`, and with a rendered prefix
of length 4, separator `": "` and `columns = 20` the default-width rule
has length `20 - 4 - 2 = 14`. -/
theorem line_rule_widths :
    (Msg.line baseState (some 10) "*"
       = Except.ok { color_start := Option.none, out_lines := ["**********"],
                     color_reset := Option.none }) ∧
    (Msg.line abcdState Option.none "-"
       = Except.ok { color_start := Option.none,
                     out_lines := ["abcd: " ++ pyRepeat "-" 14],
                     color_reset := Option.none }
       ∧ (pyRepeat "-" 14).length = 14) ∧
    (∀ (sp : String) (prefs : List String) (w : Int),
       0 < (pyStrip (pyJoin sp prefs)).length →
       lineRuleWidth sp prefs w
         = max 0 (w - (((pyStrip (pyJoin sp prefs)).length : Int)
                        + ((sp.length : Nat) : Int)))) ∧
    (∀ (sp : String) (prefs : List String) (w : Int),
       (pyStrip (pyJoin sp prefs)).length = 0 → lineRuleWidth sp prefs w = w) := by
  refine ⟨rfl, ⟨rfl, rfl⟩, ?_, ?_⟩
  · intro sp prefs w h
    simp only [lineRuleWidth]
    rw [if_pos (by omega)]
    rw [max_def]
    split_ifs <;> omega
  · intro sp prefs w h
    simp only [lineRuleWidth]
    rw [if_neg (by omega)]

/-- Claim C4 witness: the general width formula evaluated at the spec's
instance (prefix of rendered length 4, separator length 2, width 20) and
at an empty prefix. -/
theorem line_rule_widths_witness :
    lineRuleWidth ": " ["abcd"] 20
      = max 0 (20 - (((pyStrip (pyJoin ": " ["abcd"])).length : Int)
                      + (((": " : String).length : Nat) : Int)) ) ∧
    lineRuleWidth ": " [] 7 = 7 := by
  constructor
  · exact line_rule_widths.2.2.1 ": " ["abcd"] 20 (by decide)
  · exact line_rule_widths.2.2.2 ": " [] 7 (by decide)

/-- Claim C10 counterexample: with two empty segments on the stack
(`prefix_set("")` then `prefix_add("")`) the joined-then-stripped prefix
is `":"`, not empty — the printed line starts with `":: "`, unlike the
empty-stack state. -/
theorem two_blank_segments_emit_separator :
    Msg.msg twoBlankState ["hello"]
      = Except.ok { color_start := Option.none, out_lines := [":: hello"],
                    color_reset := Option.none } ∧
    Msg.msg baseState ["hello"]
      = Except.ok { color_start := Option.none, out_lines := ["hello"],
                    color_reset := Option.none } ∧
    (":: hello" : String) ≠ "hello" := by
  refine ⟨rfl, rfl, by decide⟩

/-- Claim C10 (amended): a prefix stack holding one single empty segment
(e.g. after `prefix_set("")`) renders to the empty prefix, and every
print produces exactly the output of the empty-stack state — no prefix
and no separator on any line. -/
theorem single_blank_segment_like_empty_stack (s : Msg) (sp : String)
    (args : List String) (back fore style wrap : PyVal) (mt : String)
    (hsep : s.prefix_separator = PyVal.str sp)
    (hpref : s.prefixes = PyVal.strlist [""]) :
    print_msg s args back fore style wrap mt
      = print_msg { s with prefixes := PyVal.strlist [] } args back fore style wrap mt := by
  have hpp : pprefOf sp [""] mt = pprefOf sp [] mt := rfl
  simp only [print_msg, hsep, hpref, asStr, asStrList, hpp]

/-- Claim C10 witness: the single-blank-segment state prints exactly as
the empty-stack state on a concrete argument. -/
theorem single_blank_segment_like_empty_stack_witness :
    print_msg oneBlankState ["hi"] PyVal.none PyVal.none PyVal.none PyVal.none ""
      = print_msg { oneBlankState with prefixes := PyVal.strlist [] } ["hi"]
          PyVal.none PyVal.none PyVal.none PyVal.none "" :=
  single_blank_segment_like_empty_stack oneBlankState ": " ["hi"]
    PyVal.none PyVal.none PyVal.none PyVal.none "" rfl rfl

/-- When the whole argument fits in the available width, one argument
emits exactly one line. -/
theorem argLines_length_one (a : String) (width : Int) (indent : String)
    (hw : (a.length : Int) ≤ width - (indent.length : Int)) :
    (argLines a width indent).length = 1 := by
  simp only [argLines, fillLines]
  set A := max 1 ((width - (indent.length : Int)).toNat) with hA
  have hAge : a.length ≤ A := by
    rw [hA]
    omega
  have hA1 : 1 ≤ A := by rw [hA]; omega
  have hwle : wordsJoinedLen (splitWS a.data) ≤ a.length := by
    have := wordsJoinedLen_splitWS_le a.data
    simpa using this
  have hshort : ∀ w ∈ splitWS a.data, w ≠ [] ∧ w.length ≤ A := by
    intro w hw'
    refine ⟨splitWS_mem_ne_nil a.data w hw', ?_⟩
    have := mem_length_le_wordsJoinedLen (splitWS a.data) w hw'
    omega
  rw [flatW_chunks_of_short A hA1 (splitWS a.data) hshort]
  cases hws : splitWS a.data with
  | nil => rfl
  | cons p ps =>
    have hfit : p.length + sumExtra ps ≤ A := by
      have h1 : wordsJoinedLen (p :: ps) ≤ a.length := by rw [← hws]; exact hwle
      simp only [wordsJoinedLen] at h1
      omega
    have hg := greedy_all_fits A ps p hfit
    obtain ⟨x, hx⟩ := List.length_eq_one.mp hg
    simp [hx]

/-- Claim C7: with wrapping disabled (globally or by the per-call
override making the effective wrap flag falsy), a print of one
500-character argument produces exactly one output line, whatever the
value of `columns` (the sentinel width 65534 is used and `columns` is
not even read); the composed prefix is assumed to fit the sentinel. -/
theorem nowrap_single_output_line (s : Msg) (sp : String) (ps : List String)
    (a : String) (back fore style wrap : PyVal) (mt : String)
    (hsep : s.prefix_separator = PyVal.str sp)
    (hpref : s.prefixes = PyVal.strlist ps)
    (hwrap : pyTruthy (if wrap = PyVal.none then s.use_textwrap else wrap) = false)
    (hlen : a.length = 500)
    (hpp : (pprefOf sp ps mt).length + 500 ≤ 65534) :
    ∃ o, print_msg s [a] back fore style wrap mt = Except.ok o
      ∧ o.out_lines.length = 1 := by
  have h1 : print_msg s [a] back fore style wrap mt
      = Except.ok
          { color_start := if pyTruthy s.use_color then
              some (pyStr (if back = PyVal.none then s.msg_back else back)
                ++ pyStr (if fore = PyVal.none then s.msg_fore else fore)
                ++ pyStr (if style = PyVal.none then s.msg_style else style))
              else Option.none
            out_lines := argsLines 65534 (pprefOf sp ps mt) [a]
            color_reset := if pyTruthy s.use_color then some styleResetAll
              else Option.none } := by
    simp only [print_msg, hsep, hpref, asStr, asStrList]
    rw [if_neg (by rw [hwrap]; simp)]
  refine ⟨_, h1, ?_⟩
  simp only [argsLines, List.append_nil]
  exact argLines_length_one a 65534 (pprefOf sp ps mt) (by omega)

set_option maxRecDepth 4000 in
/-- Claim C7 witness: a 500-character single-word argument printed with
wrapping globally disabled emits exactly one line. -/
theorem nowrap_single_output_line_witness :
    ∃ o, print_msg nowrapState [String.mk (List.replicate 500 'x')] PyVal.none
        PyVal.none PyVal.none PyVal.none "" = Except.ok o
      ∧ o.out_lines.length = 1 :=
  nowrap_single_output_line nowrapState ": " [] (String.mk (List.replicate 500 'x'))
    PyVal.none PyVal.none PyVal.none PyVal.none "" rfl rfl rfl
    (by show (List.replicate 500 'x').length = 500; simp) (by decide)

/-- Claim C6 counterexample: a 15-character all-whitespace argument is
longer than the 14 usable columns, yet with `columns = 20`, prefix
`"info"` and separator `": "` it produces exactly one output line, and
that line is empty — it does not begin with `"info: "`. -/
theorem wrap_allspace_arg_single_bare_line :
    (String.mk (List.replicate 15 ' ')).length = 15 ∧
    Msg.msg c6State [String.mk (List.replicate 15 ' ')]
      = Except.ok { color_start := Option.none, out_lines := [""],
                    color_reset := Option.none } ∧
    ¬ (2 ≤ ([""] : List String).length) ∧
    ∀ t : String, ("" : String) ≠ "info: " ++ t := by
  refine ⟨rfl, rfl, by decide, ?_⟩
  intro t ht
  have hlen := congrArg String.length ht
  rw [String.length_append] at hlen
  have h0 : ("" : String).length = 0 := rfl
  have h6 : ("info: " : String).length = 6 := rfl
  rw [h0, h6] at hlen
  omega

/-- Claim C6 (amended): with wrapping enabled, `columns = 20` and the
composed line-prefix `"info: "` (prefix `"info"`, separator `": "`),
printing one argument whose whitespace-normalised content (its words
joined by single spaces) is longer than the 14 usable columns produces
at least two output lines, and every output line begins with the exact
string `"info: "`. -/
theorem wrap_long_arg_prefixed_multiline (a : String)
    (h : 14 < wordsJoinedLen (splitWS a.data)) :
    ∃ ls, Msg.msg c6State [a]
        = Except.ok { color_start := Option.none, out_lines := ls,
                      color_reset := Option.none } ∧
      2 ≤ ls.length ∧ ∀ l ∈ ls, ∃ t, l = "info: " ++ t := by
  have hwne : ∀ w ∈ splitWS a.data, w ≠ [] :=
    fun w hw => splitWS_mem_ne_nil a.data w hw
  have h14 : (1 : Nat) ≤ 14 := by omega
  have hpmem := flatW_chunks_mem 14 h14 (splitWS a.data) hwne
  have hpse := flatW_chunks_sumExtra 14 h14 (splitWS a.data) hwne
  have hwsne : splitWS a.data ≠ [] := by
    intro hnil
    rw [hnil] at h
    simp [wordsJoinedLen] at h
  have hse : 16 ≤ sumExtra (splitWS a.data) := by
    have := wordsJoinedLen_eq_sumExtra (splitWS a.data) hwsne
    omega
  have hfill : fillLines a 20 "info: "
      = (match flatW (chunks 14) (splitWS a.data) with
         | [] => []
         | p :: ps => (greedy 14 p ps).map (fun l => "info: " ++ String.mk l)) := rfl
  cases hp : flatW (chunks 14) (splitWS a.data) with
  | nil =>
    exfalso
    rw [hp] at hpse
    simp only [sumExtra] at hpse
    omega
  | cons p ps =>
    rw [hp] at hpmem hpse
    have hfill2 : fillLines a 20 "info: "
        = (greedy 14 p ps).map (fun l => "info: " ++ String.mk l) := by
      rw [hfill, hp]
    cases hgre : greedy 14 p ps with
    | nil => exact absurd hgre (greedy_ne_nil 14 ps p)
    | cons g gs =>
      rw [hgre] at hfill2
      have hAL : argLines a 20 "info: "
          = ("info: " ++ String.mk g) :: gs.map (fun l => "info: " ++ String.mk l) := by
        simp only [argLines, hfill2, List.map_cons, List.isEmpty_cons,
          Bool.false_eq_true, if_false]
      have hgs : gs ≠ [] := by
        intro hgs
        subst hgs
        have hx := greedy_singleton 14 ps p g hgre
        have hple : p.length ≤ 14 := (hpmem p (List.mem_cons_self p ps)).2
        have hgle : g.length ≤ 14 :=
          greedy_line_len 14 ps p hple
            (fun w hw => (hpmem w (List.mem_cons_of_mem p hw)).2) g
            (by rw [hgre]; exact List.mem_singleton_self g)
        simp only [sumExtra] at hpse
        omega
      refine ⟨argsLines 20 "info: " [a], rfl, ?_, ?_⟩
      · simp only [argsLines, List.append_nil, hAL, List.length_cons,
          List.length_map]
        have := List.length_pos.mpr hgs
        omega
      · intro l hl
        simp only [argsLines, List.append_nil, hAL, List.mem_cons] at hl
        rcases hl with rfl | hl
        · exact ⟨String.mk g, rfl⟩
        · rw [List.mem_map] at hl
          obtain ⟨lc, _, rfl⟩ := hl
          exact ⟨String.mk lc, rfl⟩

/-- Claim C6 witness: a 16-character single-word argument wraps to at
least two lines, each starting with `"info: "`. -/
theorem wrap_long_arg_prefixed_multiline_witness :
    14 < wordsJoinedLen (splitWS ("abcdefghijklmnop" : String).data) ∧
    ∃ ls, Msg.msg c6State ["abcdefghijklmnop"]
        = Except.ok { color_start := Option.none, out_lines := ls,
                      color_reset := Option.none } ∧
      2 ≤ ls.length ∧ ∀ l ∈ ls, ∃ t, l = "info: " ++ t :=
  ⟨by decide, wrap_long_arg_prefixed_multiline "abcdefghijklmnop" (by decide)⟩
